import Mathlib

/-!
Shallow embedding of the jsonsql Go library (Value[T] and Nullable[T]
wrappers for JSON columns in database/sql), together with proofs about
its Scan/Value contracts.

Bytes are modelled as `List Nat` (each element a byte value 0–255).
The delegated JSON codec (encoding/json) is modelled abstractly as a
`Codec` record; `unmarshal` decodes into an existing destination value
and on failure returns the (possibly partially overwritten) destination,
matching `json.Unmarshal`'s in-place semantics.
-/

namespace jsonsql

/-! ### bytes.TrimSpace (Go standard library)

`Value.Scan` and `Nullable.Scan` classify a payload as the JSON null
literal via `bytes.Equal(bytes.TrimSpace(data), []byte("null"))`.
`bytes.TrimSpace` has an ASCII fast path and falls back to a
Unicode-aware rune-by-rune trim (`unicode.IsSpace`) as soon as a byte
≥ 0x80 is met while trimming.  Both paths are embedded here. -/

/-- The ASCII whitespace table of `bytes.TrimSpace`'s fast path:
tab, line feed, vertical tab, form feed, carriage return, space. -/
def asciiSpace (c : Nat) : Bool :=
  c == 9 || c == 10 || c == 11 || c == 12 || c == 13 || c == 32

/-- unicode.IsSpace on a decoded rune: the Unicode White_Space property. -/
def isSpaceRune (r : Nat) : Bool :=
  r == 9 || r == 10 || r == 11 || r == 12 || r == 13 || r == 32 ||
  r == 0x85 || r == 0xA0 || r == 0x1680 ||
  (0x2000 ≤ r && r ≤ 0x200A) ||
  r == 0x2028 || r == 0x2029 || r == 0x202F || r == 0x205F || r == 0x3000

/-- A UTF-8 continuation byte (10xxxxxx). -/
def contByte (b : Nat) : Bool := 0x80 ≤ b && b ≤ 0xBF

/-- utf8.RuneStart: a byte that does not have the form 10xxxxxx. -/
def runeStart (b : Nat) : Bool := !contByte b

/-- utf8.DecodeRune: decode the first rune of a byte sequence, returning
the rune and the number of bytes consumed; malformed or short input
yields (RuneError = 0xFFFD, 1), empty input (RuneError, 0). -/
def decodeRune : List Nat → Nat × Nat
  | [] => (0xFFFD, 0)
  | b0 :: rest =>
    if b0 < 0x80 then (b0, 1)
    else if b0 < 0xC2 then (0xFFFD, 1)
    else if b0 ≤ 0xDF then
      match rest with
      | b1 :: _ =>
        if contByte b1 then ((b0 % 0x20) * 0x40 + b1 % 0x40, 2)
        else (0xFFFD, 1)
      | [] => (0xFFFD, 1)
    else if b0 ≤ 0xEF then
      let lo := if b0 == 0xE0 then 0xA0 else 0x80
      let hi := if b0 == 0xED then 0x9F else 0xBF
      match rest with
      | b1 :: b2 :: _ =>
        if lo ≤ b1 && b1 ≤ hi && contByte b2 then
          ((b0 % 0x10) * 0x1000 + (b1 % 0x40) * 0x40 + b2 % 0x40, 3)
        else (0xFFFD, 1)
      | _ => (0xFFFD, 1)
    else if b0 ≤ 0xF4 then
      let lo := if b0 == 0xF0 then 0x90 else 0x80
      let hi := if b0 == 0xF4 then 0x8F else 0xBF
      match rest with
      | b1 :: b2 :: b3 :: _ =>
        if lo ≤ b1 && b1 ≤ hi && contByte b2 && contByte b3 then
          ((b0 % 0x8) * 0x40000 + (b1 % 0x40) * 0x1000 +
             (b2 % 0x40) * 0x40 + b3 % 0x40, 4)
        else (0xFFFD, 1)
      | _ => (0xFFFD, 1)
    else (0xFFFD, 1)

/-- Backward scan of utf8.DecodeLastRune: the largest index in [lim, i]
holding a rune-start byte, scanning downward from i. -/
def lastStartIdx (s : List Nat) (lim : Nat) : Nat → Option Nat
  | 0 => if lim == 0 && runeStart (s.getD 0 0) then some 0 else none
  | i + 1 =>
    if i + 1 < lim then none
    else if runeStart (s.getD (i + 1) 0) then some (i + 1)
    else lastStartIdx s lim i

/-- utf8.DecodeLastRune: decode the final rune of a byte sequence. -/
def decodeLastRune (s : List Nat) : Nat × Nat :=
  match s.length with
  | 0 => (0xFFFD, 0)
  | e + 1 =>
    let lastB := s.getD e 0
    if lastB < 0x80 then (lastB, 1)
    else
      let lim := (e + 1) - 4
      let start :=
        match e with
        | 0 => 0
        | j + 1 =>
          match lastStartIdx s lim j with
          | some i => i
          | none => lim - 1
      let pr := decodeRune (s.drop start)
      if start + pr.2 == e + 1 then pr else (0xFFFD, 1)

/-- bytes.TrimLeftFunc(s, unicode.IsSpace): drop leading whitespace
runes.  The fuel argument bounds the iteration count; each step consumes
at least one byte, so `s.length` fuel is always enough. -/
def trimLeftSpaceAux : Nat → List Nat → List Nat
  | 0, s => s
  | _ + 1, [] => []
  | fuel + 1, b :: rest =>
    let pr := if b < 0x80 then (b, 1) else decodeRune (b :: rest)
    if isSpaceRune pr.1 then trimLeftSpaceAux fuel ((b :: rest).drop pr.2)
    else b :: rest

/-- bytes.TrimLeftFunc(s, unicode.IsSpace). -/
def trimLeftSpace (s : List Nat) : List Nat := trimLeftSpaceAux s.length s

/-- bytes.TrimRightFunc(s, unicode.IsSpace): drop trailing whitespace
runes, with fuel as in `trimLeftSpaceAux`. -/
def trimRightSpaceAux : Nat → List Nat → List Nat
  | 0, s => s
  | _ + 1, [] => []
  | fuel + 1, s =>
    let pr := decodeLastRune s
    if isSpaceRune pr.1 then trimRightSpaceAux fuel (s.take (s.length - pr.2))
    else s

/-- bytes.TrimRightFunc(s, unicode.IsSpace). -/
def trimRightSpace (s : List Nat) : List Nat := trimRightSpaceAux s.length s

/-- The trailing loop of bytes.TrimSpace: scan from index `stop - 1`
downward over ASCII whitespace; a byte ≥ 0x80 falls back to the
Unicode-aware trim of the whole remaining slice. -/
def trimSpaceTrail (s : List Nat) : Nat → List Nat
  | 0 => []
  | stop + 1 =>
    let c := s.getD stop 0
    if 0x80 ≤ c then trimRightSpace (trimLeftSpace s)
    else if asciiSpace c then trimSpaceTrail s stop
    else s.take (stop + 1)

/-- bytes.TrimSpace: ASCII fast path trimming both ends, falling back to
the Unicode-aware trim on meeting a byte ≥ 0x80. -/
def bytesTrimSpace : List Nat → List Nat
  | [] => []
  | b :: rest =>
    if 0x80 ≤ b then trimRightSpace (trimLeftSpace (b :: rest))
    else if asciiSpace b then bytesTrimSpace rest
    else trimSpaceTrail (b :: rest) (b :: rest).length

/-- The bytes of the JSON literal `null`. -/
def nullLit : List Nat := [110, 117, 108, 108]

/-! ### The delegated JSON codec and the scan interface -/

/-- Result of `json.Unmarshal(data, dst)`: on success the new contents
of the destination; on failure a wrapped error is returned and the
destination may have been partially overwritten, so the error case also
carries the destination's contents after the call. -/
inductive UnmarshalResult (T : Type) where
  | ok : T → UnmarshalResult T
  | err : T → UnmarshalResult T
  deriving DecidableEq

/-- The delegated document codec (encoding/json), abstract: `marshal`
returns `none` on a serialization failure; `unmarshal` decodes bytes
into an existing destination value. -/
structure Codec (T : Type) where
  marshal : T → Option (List Nat)
  unmarshal : List Nat → T → UnmarshalResult T

/-- The raw source handed to Scan by database/sql: nil, []byte, string,
json.RawMessage, or any other (unsupported) type. -/
inductive Src where
  | nilSrc : Src
  | bytes : List Nat → Src
  | str : List Nat → Src
  | raw : List Nat → Src
  | other : Src
  deriving DecidableEq

/-- The errors a Scan call can return: ErrNullNotAllowed, the
unsupported-source-type error, or a wrapped codec (decode) error. -/
inductive ScanErr where
  | nullNotAllowed : ScanErr
  | unsupportedType : ScanErr
  | decodeFailed : ScanErr
  deriving DecidableEq

/-- The result of a driver.Valuer call: encoded bytes, the nil "no
value" marker (SQL NULL), or a wrapped codec (encode) error. -/
inductive DriverResult where
  | bytes : List Nat → DriverResult
  | nullMarker : DriverResult
  | encodeFailed : DriverResult
  deriving DecidableEq

/-! ### Value[T] — the NOT NULL box (src/value.go) -/

/-- Value[T] wraps a payload of type T for a NOT NULL JSON column. -/
structure Value (T : Type) where
  V : T
  deriving DecidableEq

/-- NewValue creates a new Value[T] with the given value. -/
def NewValue {T : Type} (v : T) : Value T := ⟨v⟩

/-- Get returns the wrapped value. -/
def Value.Get {T : Type} (v : Value T) : T := v.V

/-- Value.Scan: Go mutates the receiver and returns an error; here the
post-state of the box is returned alongside the error.  nil and the
(whitespace-trimmed) JSON literal `null` yield ErrNullNotAllowed;
unsupported source types are rejected before any mutation; otherwise
the bytes are delegated to the codec. -/
def Value.Scan {T : Type} (c : Codec T) (v : Value T) :
    Src → Value T × Option ScanErr
  | .nilSrc => (v, some .nullNotAllowed)
  | .other => (v, some .unsupportedType)
  | .bytes d | .str d | .raw d =>
    if bytesTrimSpace d = nullLit then (v, some .nullNotAllowed)
    else
      match c.unmarshal d v.V with
      | .ok w => (⟨w⟩, none)
      | .err w => (⟨w⟩, some .decodeFailed)

/-- Value.Value (driver.Valuer): marshal V, wrapping codec failure.
Named DriverValue here because a Lean declaration cannot share its
namespace segment with its own name. -/
def Value.DriverValue {T : Type} (c : Codec T) (v : Value T) : DriverResult :=
  match c.marshal v.V with
  | some data => .bytes data
  | none => .encodeFailed

/-! ### Nullable[T] — the NULL-able box (nullable source file) -/

/-- Nullable[T] wraps a payload of type T plus a validity flag for a
NULL-able JSON column; Valid = false represents SQL NULL. -/
structure Nullable (T : Type) where
  V : T
  Valid : Bool
  deriving DecidableEq

/-- NullableFrom creates a Nullable[T] with Valid=true. -/
def NullableFrom {T : Type} (v : T) : Nullable T := ⟨v, true⟩

/-- Null creates a Nullable[T] with Valid=false; the Go struct literal
leaves V at the zero value of T, which is passed here as `z`. -/
def Null {T : Type} (z : T) : Nullable T := ⟨z, false⟩

/-- NewNullable creates a Nullable[T] from a value and a valid flag. -/
def NewNullable {T : Type} (z v : T) (valid : Bool) : Nullable T :=
  if !valid then Null z else NullableFrom v

/-- NullableFromPtr creates a Nullable[T] from a possibly-nil pointer. -/
def NullableFromPtr {T : Type} (z : T) : Option T → Nullable T
  | none => Null z
  | some v => NullableFrom v

/-- ToPtr returns the value if Valid, otherwise nil. -/
def Nullable.ToPtr {T : Type} (n : Nullable T) : Option T :=
  if !n.Valid then none else some n.V

/-- Get returns the value and the validity flag. -/
def Nullable.Get {T : Type} (n : Nullable T) : T × Bool := (n.V, n.Valid)

/-- Nullable.Scan: nil, an empty []byte / string / json.RawMessage, and
the (whitespace-trimmed) JSON literal `null` all set Valid=false and
reset V to the zero value `z` of T; unsupported source types are
rejected before any mutation; otherwise the bytes are delegated to the
codec and Valid is set to true on success (on decode failure Valid is
left untouched and V holds whatever the codec left behind). -/
def Nullable.Scan {T : Type} (c : Codec T) (z : T) (n : Nullable T) :
    Src → Nullable T × Option ScanErr
  | .nilSrc => (⟨z, false⟩, none)
  | .other => (n, some .unsupportedType)
  | .bytes d | .str d | .raw d =>
    if d = [] then (⟨z, false⟩, none)
    else if bytesTrimSpace d = nullLit then (⟨z, false⟩, none)
    else
      match c.unmarshal d n.V with
      | .ok w => (⟨w, true⟩, none)
      | .err w => (⟨w, n.Valid⟩, some .decodeFailed)

/-- Nullable.Value (driver.Valuer): the nil marker when Valid=false,
otherwise marshal V, wrapping codec failure; named DriverValue to
match Value.DriverValue. -/
def Nullable.DriverValue {T : Type} (c : Codec T) (n : Nullable T) : DriverResult :=
  if !n.Valid then .nullMarker
  else
    match c.marshal n.V with
    | some data => .bytes data
    | none => .encodeFailed

/-! ### Concrete codec instances used by witnesses and counterexamples -/

/-- A simple total codec on Nat: a value encodes as a one-byte list
holding itself; any other byte list fails to decode (leaving the
destination unchanged). -/
def natCodec : Codec Nat where
  marshal n := some [n]
  unmarshal d t :=
    match d with
    | [k] => .ok k
    | _ => .err t

/-- Models encoding/json's behaviour on a nullable pointer payload such
as *int: nil (here `none`) marshals to the literal `null`, and the
literal `null` unmarshals to nil; a one-byte list encodes the pointed-to
value. -/
def optCodec : Codec (Option Nat) where
  marshal v :=
    match v with
    | none => some nullLit
    | some k => some [k]
  unmarshal d t :=
    if d = nullLit then .ok none
    else
      match d with
      | [k] => .ok (some k)
      | _ => .err t

/-- A codec whose marshal always fails, modelling a payload type with a
non-serializable member (e.g. a struct containing a channel). -/
def failCodec : Codec Nat where
  marshal _ := none
  unmarshal _ t := .err t

/-! ### Spec-side predicates

These definitions follow the specification's words (not the code) and
are used to compare the code's null classification with the claimed
one. -/

/-- Drop the longest suffix whose elements satisfy p. -/
def dropTrailing (p : Nat → Bool) (s : List Nat) : List Nat :=
  (s.reverse.dropWhile p).reverse

/-- Follows the spec's words: the content is the token `null` surrounded
on either side, in any amount and combination, by bytes from the
whitespace set `ws`. -/
def nullPadded (ws : Nat → Bool) (d : List Nat) : Prop :=
  ∃ w1 w2, d = w1 ++ nullLit ++ w2 ∧
    (∀ b ∈ w1, ws b = true) ∧ (∀ b ∈ w2, ws b = true)

/-- Follows the spec's words: the claimed whitespace set of claim C6 —
space, tab, newline, carriage return only. -/
def wsSpec (c : Nat) : Bool := c == 32 || c == 9 || c == 10 || c == 13

/-! ### Characterizing bytes.TrimSpace on ASCII input -/

theorem dropWhile_append_all {p : Nat → Bool} {w t : List Nat}
    (h : ∀ b ∈ w, p b = true) :
    List.dropWhile p (w ++ t) = List.dropWhile p t := by
  induction w with
  | nil => rfl
  | cons b w ih =>
    have hb : p b = true := h b (List.mem_cons_self b w)
    simp only [List.cons_append, List.dropWhile_cons_of_pos hb]
    exact ih fun x hx => h x (List.mem_cons_of_mem b hx)

theorem dropTrailing_concat_pos {p : Nat → Bool} {t : List Nat} {c : Nat}
    (hc : p c = true) : dropTrailing p (t ++ [c]) = dropTrailing p t := by
  simp [dropTrailing, List.dropWhile_cons_of_pos hc]

theorem dropTrailing_concat_neg {p : Nat → Bool} {t : List Nat} {c : Nat}
    (hc : ¬ p c = true) : dropTrailing p (t ++ [c]) = t ++ [c] := by
  simp [dropTrailing, List.dropWhile_cons_of_neg hc]

theorem trimSpaceTrail_ascii (s : List Nat) (h : ∀ b ∈ s, b < 128) :
    ∀ stop, stop ≤ s.length →
      trimSpaceTrail s stop = dropTrailing asciiSpace (s.take stop) := by
  intro stop
  induction stop with
  | zero => intro _; simp [trimSpaceTrail, dropTrailing]
  | succ k ih =>
    intro hle
    have hk : k < s.length := Nat.lt_of_succ_le hle
    have hget : s.getD k 0 = s[k] := by
      rw [List.getD_eq_getElem?_getD, List.getElem?_eq_getElem hk]
      rfl
    have hmem : s[k] ∈ s := List.getElem_mem hk
    have hlt : s[k] < 128 := h _ hmem
    have htake : s.take (k + 1) = s.take k ++ [s[k]] := by
      rw [List.take_succ, List.getElem?_eq_getElem hk]
      rfl
    show trimSpaceTrail s (k + 1) = _
    rw [trimSpaceTrail]
    simp only [hget]
    have hnot : ¬ (0x80 ≤ s[k]) := by omega
    rw [if_neg hnot]
    by_cases hsp : asciiSpace s[k] = true
    · rw [if_pos hsp, ih (Nat.le_of_lt hk), htake, dropTrailing_concat_pos hsp]
    · rw [if_neg hsp, htake, dropTrailing_concat_neg hsp, ← htake]

theorem bytesTrimSpace_ascii (s : List Nat) (h : ∀ b ∈ s, b < 128) :
    bytesTrimSpace s = dropTrailing asciiSpace (s.dropWhile asciiSpace) := by
  induction s with
  | nil => simp [bytesTrimSpace, dropTrailing]
  | cons b rest ih =>
    have hb : b < 128 := h b (List.mem_cons_self b rest)
    have hnot : ¬ (0x80 ≤ b) := by omega
    rw [bytesTrimSpace, if_neg hnot]
    by_cases hsp : asciiSpace b = true
    · rw [if_pos hsp, List.dropWhile_cons_of_pos hsp]
      exact ih fun x hx => h x (List.mem_cons_of_mem b hx)
    · rw [if_neg hsp, List.dropWhile_cons_of_neg hsp]
      have := trimSpaceTrail_ascii (b :: rest) h (b :: rest).length
        (Nat.le_refl _)
      rw [this, List.take_length]

theorem dropTrailing_eq_null_decomp {p : Nat → Bool} {m : List Nat}
    (hm : dropTrailing p m = nullLit) :
    ∃ w2, m = nullLit ++ w2 ∧ ∀ b ∈ w2, p b = true := by
  have hrev : m.reverse.dropWhile p = nullLit.reverse := by
    have := congrArg List.reverse hm
    simpa [dropTrailing] using this
  refine ⟨(m.reverse.takeWhile p).reverse, ?_, ?_⟩
  · have hsplit : m.reverse.takeWhile p ++ m.reverse.dropWhile p = m.reverse :=
      List.takeWhile_append_dropWhile p m.reverse
    have hq := congrArg List.reverse hsplit
    rw [List.reverse_append, hrev] at hq
    simp only [List.reverse_reverse] at hq
    exact hq.symm
  · intro b hb
    exact List.mem_takeWhile_imp (List.mem_reverse.mp hb)

/-- On input whose bytes are all ASCII, the code's null classification
holds exactly when the content is the token `null` surrounded by bytes
from the six-element ASCII whitespace set of `bytes.TrimSpace` (tab,
LF, VT, FF, CR, space). -/
theorem bytesTrimSpace_eq_null_iff (d : List Nat) (h : ∀ b ∈ d, b < 128) :
    bytesTrimSpace d = nullLit ↔ nullPadded asciiSpace d := by
  rw [bytesTrimSpace_ascii d h]
  constructor
  · intro htrim
    obtain ⟨w2, hw2, hallw2⟩ := dropTrailing_eq_null_decomp htrim
    refine ⟨d.takeWhile asciiSpace, w2, ?_, ?_, hallw2⟩
    · have hsplit : d.takeWhile asciiSpace ++ d.dropWhile asciiSpace = d :=
        List.takeWhile_append_dropWhile asciiSpace d
      rw [hw2] at hsplit
      rw [List.append_assoc]
      exact hsplit.symm
    · intro b hb; exact List.mem_takeWhile_imp hb
  · rintro ⟨w1, w2, rfl, h1, h2⟩
    rw [List.append_assoc, dropWhile_append_all h1]
    have h110 : ¬ asciiSpace 110 = true := by decide
    have hdw : List.dropWhile asciiSpace (nullLit ++ w2) = nullLit ++ w2 :=
      List.dropWhile_cons_of_neg h110
    rw [hdw]
    have hall : ∀ b ∈ w2.reverse, asciiSpace b = true := by
      intro b hb; exact h2 b (List.mem_reverse.mp hb)
    show ((nullLit ++ w2).reverse.dropWhile asciiSpace).reverse = nullLit
    rw [List.reverse_append, dropWhile_append_all hall]
    decide

/-! ### Normalization of Scan on the three data-carrying source shapes -/

theorem value_scan_data {T : Type} (c : Codec T) (v : Value T)
    (d : List Nat) (src : Src)
    (hsrc : src = .bytes d ∨ src = .str d ∨ src = .raw d) :
    Value.Scan c v src =
      if bytesTrimSpace d = nullLit then (v, some .nullNotAllowed)
      else
        match c.unmarshal d v.V with
        | .ok w => (⟨w⟩, none)
        | .err w => (⟨w⟩, some .decodeFailed) := by
  rcases hsrc with rfl | rfl | rfl <;> rfl

theorem nullable_scan_data {T : Type} (c : Codec T) (z : T)
    (n : Nullable T) (d : List Nat) (src : Src)
    (hsrc : src = .bytes d ∨ src = .str d ∨ src = .raw d) :
    Nullable.Scan c z n src =
      if d = [] then (⟨z, false⟩, none)
      else if bytesTrimSpace d = nullLit then (⟨z, false⟩, none)
      else
        match c.unmarshal d n.V with
        | .ok w => (⟨w, true⟩, none)
        | .err w => (⟨w, n.Valid⟩, some .decodeFailed) := by
  rcases hsrc with rfl | rfl | rfl <;> rfl

/-! ### Claim theorems -/

/-- C3: Nullable[T].Scan on a nil source, an empty byte slice, an empty
string, an empty json.RawMessage, or any input whose whitespace-trimmed
content is exactly the literal `null`, succeeds (no error), sets
Valid=false and resets V to the zero value of T. -/
theorem C3_nullable_scan_null_like (T : Type) (c : Codec T) (z : T)
    (n : Nullable T) (src : Src)
    (h : src = .nilSrc ∨ src = .bytes [] ∨ src = .str [] ∨ src = .raw [] ∨
      ∃ d, (src = .bytes d ∨ src = .str d ∨ src = .raw d) ∧
        bytesTrimSpace d = nullLit) :
    Nullable.Scan c z n src = (⟨z, false⟩, none) := by
  rcases h with rfl | rfl | rfl | rfl | ⟨d, hd, htrim⟩
  · rfl
  · rfl
  · rfl
  · rfl
  · rw [nullable_scan_data c z n d src hd]
    by_cases he : d = []
    · rw [if_pos he]
    · rw [if_neg he, if_pos htrim]

/-- C3 witness: scanning the whitespace-padded literal `null` into a
previously valid box yields success with Valid=false and V reset. -/
theorem C3_witness :
    Nullable.Scan natCodec 0 ⟨7, true⟩ (Src.bytes [32, 110, 117, 108, 108]) =
      (⟨0, false⟩, none) :=
  C3_nullable_scan_null_like Nat natCodec 0 ⟨7, true⟩ _
    (Or.inr (Or.inr (Or.inr (Or.inr ⟨[32, 110, 117, 108, 108],
      Or.inl rfl, by decide⟩))))

/-- C4: Value[T].Scan on a nil source, or on a byte / string /
json.RawMessage source whose whitespace-trimmed content is exactly
`null`, returns ErrNullNotAllowed (and never a wrapped decode error;
the box is also left unchanged). -/
theorem C4_value_scan_null_rejected (T : Type) (c : Codec T)
    (v : Value T) (src : Src)
    (h : src = .nilSrc ∨
      ∃ d, (src = .bytes d ∨ src = .str d ∨ src = .raw d) ∧
        bytesTrimSpace d = nullLit) :
    Value.Scan c v src = (v, some .nullNotAllowed) := by
  rcases h with rfl | ⟨d, hd, htrim⟩
  · rfl
  · rw [value_scan_data c v d src hd, if_pos htrim]

/-- C4 witness: scanning the newline-padded literal `null` returns
ErrNullNotAllowed. -/
theorem C4_witness :
    Value.Scan natCodec ⟨5⟩ (Src.bytes [10, 110, 117, 108, 108, 10]) =
      (⟨5⟩, some ScanErr.nullNotAllowed) :=
  C4_value_scan_null_rejected Nat natCodec ⟨5⟩ _
    (Or.inr ⟨[10, 110, 117, 108, 108, 10], Or.inl rfl, by decide⟩)

/-- C5: Nullable[T].Value on an invalid box returns the nil "no value"
marker with no error; the statement quantifies over every codec —
including codecs whose marshal always fails — so the delegated encoder
is provably never consulted. -/
theorem C5_nullable_value_invalid (T : Type) (c : Codec T)
    (n : Nullable T) (h : n.Valid = false) :
    Nullable.DriverValue c n = .nullMarker := by
  simp [Nullable.DriverValue, h]

/-- C5 witness: encoding an invalid box succeeds even under a codec
whose marshal fails on every value. -/
theorem C5_witness : Nullable.DriverValue failCodec (Null 0) = .nullMarker :=
  C5_nullable_value_invalid Nat failCodec (Null 0) rfl

/-- C7: every Nullable[T] produced by a constructor (NewNullable,
NullableFrom, Null, NullableFromPtr) or by a successful Scan satisfies
the invariant Valid=false → V is the zero value of T. -/
theorem C7_nullable_invariant (T : Type) (c : Codec T) (z v : T)
    (valid : Bool) (p : Option T) (n : Nullable T) (src : Src) :
    ((NewNullable z v valid).Valid = false → (NewNullable z v valid).V = z) ∧
    ((NullableFrom v).Valid = false → (NullableFrom v).V = z) ∧
    ((Null z).Valid = false → (Null z).V = z) ∧
    ((NullableFromPtr z p).Valid = false → (NullableFromPtr z p).V = z) ∧
    ((Nullable.Scan c z n src).2 = none →
      (Nullable.Scan c z n src).1.Valid = false →
      (Nullable.Scan c z n src).1.V = z) := by
  refine ⟨?_, ?_, ?_, ?_, ?_⟩
  · cases valid <;> simp [NewNullable, Null, NullableFrom]
  · simp [NullableFrom]
  · simp [Null]
  · cases p <;> simp [NullableFromPtr, Null, NullableFrom]
  · cases src with
    | nilSrc => intro _ _; rfl
    | other => intro h _; simp [Nullable.Scan] at h
    | bytes d | str d | raw d =>
      rw [nullable_scan_data c z n d _ (by simp)]
      by_cases he : d = []
      · rw [if_pos he]; intro _ _; rfl
      · rw [if_neg he]
        by_cases ht : bytesTrimSpace d = nullLit
        · rw [if_pos ht]; intro _ _; rfl
        · rw [if_neg ht]
          cases hu : c.unmarshal d n.V <;> simp

/-- C7 witness at concrete inputs. -/
theorem C7_witness :
    ((NewNullable 0 5 false).Valid = false → (NewNullable 0 5 false).V = 0) ∧
    ((NullableFrom 5).Valid = false → (NullableFrom 5).V = 0) ∧
    ((Null 0).Valid = false → (Null 0).V = 0) ∧
    ((NullableFromPtr 0 (some 3)).Valid = false →
      (NullableFromPtr 0 (some 3)).V = 0) ∧
    ((Nullable.Scan natCodec 0 ⟨9, true⟩ Src.nilSrc).2 = none →
      (Nullable.Scan natCodec 0 ⟨9, true⟩ Src.nilSrc).1.Valid = false →
      (Nullable.Scan natCodec 0 ⟨9, true⟩ Src.nilSrc).1.V = 0) :=
  C7_nullable_invariant Nat natCodec 0 5 false (some 3) ⟨9, true⟩ Src.nilSrc

/-- C8: when Value[T].Scan returns ErrNullNotAllowed or the
unsupported-source-type error the box is exactly as before the call,
and when Nullable[T].Scan returns the unsupported-source-type error
both V and Valid are exactly as before the call. -/
theorem C8_scan_frame (T : Type) (c : Codec T) (z : T) (v : Value T)
    (n : Nullable T) (src : Src) :
    (((Value.Scan c v src).2 = some .nullNotAllowed ∨
      (Value.Scan c v src).2 = some .unsupportedType) →
        (Value.Scan c v src).1 = v) ∧
    ((Nullable.Scan c z n src).2 = some .unsupportedType →
        (Nullable.Scan c z n src).1 = n) := by
  constructor
  · intro h
    cases src with
    | nilSrc => rfl
    | other => rfl
    | bytes d | str d | raw d =>
      rw [value_scan_data c v d _ (by simp)] at h ⊢
      by_cases ht : bytesTrimSpace d = nullLit
      · rw [if_pos ht]
      · rw [if_neg ht] at h ⊢
        cases hu : c.unmarshal d v.V <;> simp [hu] at h
  · intro h
    cases src with
    | nilSrc => simp [Nullable.Scan] at h
    | other => rfl
    | bytes d | str d | raw d =>
      rw [nullable_scan_data c z n d _ (by simp)] at h
      by_cases he : d = []
      · rw [if_pos he] at h; simp at h
      · rw [if_neg he] at h
        by_cases ht : bytesTrimSpace d = nullLit
        · rw [if_pos ht] at h; simp at h
        · rw [if_neg ht] at h
          cases hu : c.unmarshal d n.V <;> simp [hu] at h

/-- C8 witness: rejecting the null literal leaves the NOT NULL box
untouched, and an unsupported source leaves the nullable box untouched. -/
theorem C8_witness :
    (Value.Scan natCodec ⟨5⟩ (Src.bytes nullLit)).1 = ⟨5⟩ ∧
    (Nullable.Scan natCodec 0 ⟨5, true⟩ Src.other).1 = ⟨5, true⟩ :=
  ⟨(C8_scan_frame Nat natCodec 0 ⟨5⟩ ⟨5, true⟩ (Src.bytes nullLit)).1
      (Or.inl (by decide)),
   (C8_scan_frame Nat natCodec 0 ⟨5⟩ ⟨5, true⟩ Src.other).2 rfl⟩

/-- C9: Value[T].Scan on an empty byte slice, empty string, or empty
json.RawMessage gets no empty-is-NULL treatment: it never returns
ErrNullNotAllowed; the empty content is delegated to the JSON decoder
and the resulting (wrapped) decode error is surfaced. -/
theorem C9_value_scan_empty_delegates (T : Type) (c : Codec T)
    (v : Value T) (src : Src) (w : T)
    (hsrc : src = .bytes [] ∨ src = .str [] ∨ src = .raw [])
    (hdec : c.unmarshal [] v.V = .err w) :
    Value.Scan c v src = (⟨w⟩, some .decodeFailed) := by
  rw [value_scan_data c v [] src hsrc,
    if_neg (by decide : ¬ bytesTrimSpace [] = nullLit), hdec]

/-- C9 witness: scanning an empty byte slice surfaces the decode error
of the delegated codec, not ErrNullNotAllowed. -/
theorem C9_witness :
    Value.Scan natCodec ⟨0⟩ (Src.bytes []) =
      (⟨0⟩, some ScanErr.decodeFailed) :=
  C9_value_scan_empty_delegates Nat natCodec ⟨0⟩ _ 0 (Or.inl rfl) rfl

/-- C10: when Nullable[T].Scan returns a wrapped decode error, the
validity flag after the call equals the validity flag before the call
(only V may have been partially modified by the codec). -/
theorem C10_nullable_decode_error_keeps_valid (T : Type) (c : Codec T)
    (z : T) (n : Nullable T) (src : Src)
    (h : (Nullable.Scan c z n src).2 = some .decodeFailed) :
    (Nullable.Scan c z n src).1.Valid = n.Valid := by
  cases src with
  | nilSrc => simp [Nullable.Scan] at h
  | other => simp [Nullable.Scan] at h
  | bytes d | str d | raw d =>
    rw [nullable_scan_data c z n d _ (by simp)] at h ⊢
    by_cases he : d = []
    · rw [if_pos he] at h; simp at h
    · rw [if_neg he] at h ⊢
      by_cases ht : bytesTrimSpace d = nullLit
      · rw [if_pos ht] at h; simp at h
      · rw [if_neg ht] at h ⊢
        cases hu : c.unmarshal d n.V <;> simp [hu] at h ⊢

/-- C10 witness: a decode failure on a previously valid box leaves
Valid=true in place. -/
theorem C10_witness :
    (Nullable.Scan natCodec 0 ⟨3, true⟩ (Src.bytes [1, 2])).1.Valid =
      (Nullable.mk 3 true).Valid :=
  C10_nullable_decode_error_keeps_valid Nat natCodec 0 ⟨3, true⟩
    (Src.bytes [1, 2]) (by decide)

/-- C1 counterexample: take a nullable pointer payload (modelled by
Option Nat with the codec behaviour of encoding/json on *int: nil
marshals to the literal `null` and `null` unmarshals to nil).  Encoding
Value{nil} succeeds with the bytes `null`, and the delegated codec
itself decodes those bytes back to nil, yet scanning them into a fresh
Value returns ErrNullNotAllowed instead of succeeding — the round-trip
identity fails for this encodable value. -/
theorem C1_counterexample :
    Value.DriverValue optCodec ⟨(none : Option Nat)⟩ = .bytes nullLit ∧
    optCodec.unmarshal nullLit none = .ok none ∧
    Value.Scan optCodec ⟨(none : Option Nat)⟩ (Src.bytes nullLit) =
      (⟨none⟩, some ScanErr.nullNotAllowed) :=
  ⟨by decide, by decide, by decide⟩

/-- C1 amended: the round-trip identity for the NOT NULL box holds for
every value whose encoding does not whitespace-trim to the literal
`null`: if Value{v}.Value() produces bytes bs, bs does not trim to
`null`, and the delegated codec decodes bs (into the fresh box's zero
destination z) back to v, then scanning bs into a fresh Value[T]
succeeds and yields Value{v}. -/
theorem C1_value_roundtrip_amended (T : Type) (c : Codec T) (z v : T)
    (bs : List Nat)
    (henc : Value.DriverValue c ⟨v⟩ = .bytes bs)
    (hnn : ¬ bytesTrimSpace bs = nullLit)
    (hdec : c.unmarshal bs z = .ok v) :
    Value.Scan c ⟨z⟩ (Src.bytes bs) = (⟨v⟩, none) := by
  rw [value_scan_data c ⟨z⟩ bs _ (Or.inl rfl), if_neg hnn]
  simp [hdec]

/-- C1 witness: a concrete round-trip through the codec. -/
theorem C1_witness :
    Value.Scan natCodec ⟨0⟩ (Src.bytes [5]) = (⟨5⟩, none) :=
  C1_value_roundtrip_amended Nat natCodec 0 5 [5] rfl (by decide) rfl

/-- C2 counterexample: with the same nullable pointer payload as in the
C1 counterexample, NullableFrom(nil) is Valid=true and encodes to the
bytes `null`; scanning those bytes into a fresh Nullable succeeds but
yields Valid=false, so the resulting box is not equal to
NullableFrom(nil). -/
theorem C2_counterexample :
    Nullable.DriverValue optCodec (NullableFrom (none : Option Nat)) =
      .bytes nullLit ∧
    (NullableFrom (none : Option Nat)).Valid = true ∧
    Nullable.Scan optCodec (none : Option Nat) ⟨none, false⟩
      (Src.bytes nullLit) = (⟨none, false⟩, none) :=
  ⟨by decide, rfl, by decide⟩

/-- C2 amended: the round-trip identity for the nullable box holds for
every value whose encoding is non-empty and does not whitespace-trim to
the literal `null` (encoding/json never produces empty output on
success, but nil pointers, slices and maps do encode to `null`): if
NullableFrom(v).Value() produces bytes bs and the delegated codec
decodes bs back to v, then scanning bs into a fresh Nullable[T] yields
exactly NullableFrom(v). -/
theorem C2_nullable_roundtrip_amended (T : Type) (c : Codec T) (z v : T)
    (bs : List Nat)
    (henc : Nullable.DriverValue c (NullableFrom v) = .bytes bs)
    (hne : bs ≠ [])
    (hnn : ¬ bytesTrimSpace bs = nullLit)
    (hdec : c.unmarshal bs z = .ok v) :
    Nullable.Scan c z ⟨z, false⟩ (Src.bytes bs) = (NullableFrom v, none) := by
  rw [nullable_scan_data c z ⟨z, false⟩ bs _ (Or.inl rfl), if_neg hne,
    if_neg hnn]
  simp [hdec, NullableFrom]

/-- C2 witness: a concrete nullable round-trip through the codec. -/
theorem C2_witness :
    Nullable.Scan natCodec 0 ⟨0, false⟩ (Src.bytes [5]) =
      (NullableFrom 5, none) :=
  C2_nullable_roundtrip_amended Nat natCodec 0 5 [5] rfl (by decide)
    (by decide) rfl

/-- C6 counterexample: the vertical-tab byte 0x0B is outside the claim's
whitespace set {space, tab, newline, carriage return}, yet the code
classifies the bytes of "\vnull" as the null literal (bytes.TrimSpace
trims every Unicode whitespace character, vertical tab included):
Value.Scan returns ErrNullNotAllowed on it although the content is not
the token `null` surrounded only by the four claimed characters. -/
theorem C6_counterexample :
    (Value.Scan natCodec ⟨0⟩ (Src.bytes [11, 110, 117, 108, 108])).2 =
      some ScanErr.nullNotAllowed ∧
    ¬ nullPadded wsSpec [11, 110, 117, 108, 108] := by
  constructor
  · decide
  · rintro ⟨w1, w2, heq, h1, _⟩
    rcases w1 with _ | ⟨b, t⟩
    · simp [nullLit] at heq
    · have hb : wsSpec b = true := h1 b (List.mem_cons_self b t)
      have hb11 : b = 11 := by
        have h0 := congrArg (fun l => l.headD 0) heq
        simpa using h0.symm
      rw [hb11] at hb
      simp [wsSpec] at hb

/-- C6 amended: for every non-empty source whose bytes are all ASCII,
both Value.Scan and Nullable.Scan classify it as the null literal
exactly when the content is the token `null` surrounded, in any amount
and combination on either side, by bytes of the six-element ASCII
whitespace set {tab, LF, VT, FF, CR, space}: the claim's four
characters must be extended with vertical tab and form feed (non-ASCII
sources can additionally be classified through the remaining Unicode
whitespace characters trimmed by bytes.TrimSpace). -/
theorem C6_amended_null_classification (T : Type) (c : Codec T)
    (z : T) (v : Value T) (n : Nullable T) (d : List Nat)
    (hne : d ≠ []) (hascii : ∀ b ∈ d, b < 128) :
    ((Value.Scan c v (Src.bytes d)).2 = some ScanErr.nullNotAllowed ↔
      nullPadded asciiSpace d) ∧
    (Nullable.Scan c z n (Src.bytes d) = (⟨z, false⟩, none) ↔
      nullPadded asciiSpace d) := by
  have hchar := bytesTrimSpace_eq_null_iff d hascii
  constructor
  · rw [value_scan_data c v d _ (Or.inl rfl)]
    by_cases ht : bytesTrimSpace d = nullLit
    · rw [if_pos ht]
      simpa using hchar.mp ht
    · rw [if_neg ht]
      constructor
      · intro habs
        cases hu : c.unmarshal d v.V <;> simp [hu] at habs
      · intro hp
        exact absurd (hchar.mpr hp) ht
  · rw [nullable_scan_data c z n d _ (Or.inl rfl), if_neg hne]
    by_cases ht : bytesTrimSpace d = nullLit
    · rw [if_pos ht]
      simpa using hchar.mp ht
    · rw [if_neg ht]
      constructor
      · intro habs
        cases hu : c.unmarshal d n.V <;> simp [hu] at habs
      · intro hp
        exact absurd (hchar.mpr hp) ht

/-- C6 witness: the classification equivalence at the concrete source
" null". -/
theorem C6_witness :
    ((Value.Scan natCodec ⟨0⟩ (Src.bytes [32, 110, 117, 108, 108])).2 =
        some ScanErr.nullNotAllowed ↔
      nullPadded asciiSpace [32, 110, 117, 108, 108]) ∧
    (Nullable.Scan natCodec 0 ⟨7, true⟩ (Src.bytes [32, 110, 117, 108, 108]) =
        (⟨0, false⟩, none) ↔
      nullPadded asciiSpace [32, 110, 117, 108, 108]) :=
  C6_amended_null_classification Nat natCodec 0 ⟨0⟩ ⟨7, true⟩
    [32, 110, 117, 108, 108] (by decide) (by decide)

end jsonsql
